import Mathlib

set_option maxRecDepth 8000

/-- Event payload values passed to handlers. The dispatch core treats the
data argument as a fully opaque value, so an integer stands in for it. -/
abbrev Data := Int

/-- JavaScript values that may arrive where an event name is expected.
The validation in the source distinguishes falsy values, strings and
everything else, so the embedding keeps those shapes. -/
inductive JSValue where
  | vStr (s : String)
  | vNum (n : Int)
  | vBool (b : Bool)
  | vNull
  | vUndefined
  deriving DecidableEq, Repr

/-- JavaScript truthiness for the values of JSValue. -/
def jsTruthy : JSValue → Bool
  | .vStr s => s ≠ ""
  | .vNum n => n ≠ 0
  | .vBool b => b
  | .vNull => false
  | .vUndefined => false

/-- The string carried by a JSValue, defaulting to the empty string.
It is only consulted after validation has established the value is a
nonempty string. -/
def JSValue.asStr : JSValue → String
  | .vStr s => s
  | _ => ""

/-- The error taxonomy of the spec. invalidArgument covers the throws for
a missing name, a non-string name, identical success and failure names,
and a bare string at construction; unknownEvent covers the allow-list
rejection; userError models an exception thrown by user handler code;
typeError models the TypeError the runtime itself raises when the
listener dictionary access for a name colliding with an inherited
Object.prototype property produces a non-array and an array method is
then called on it; outOfFuel is the artificial bound of the fueled
interpreter and never corresponds to a source behavior. -/
inductive EvError where
  | invalidArgument
  | unknownEvent
  | userError (eid : Nat)
  | typeError
  | outOfFuel
  deriving DecidableEq, Repr

/-- Marks whether a race pair of internal handlers was installed by the
promise-returning await method or by the callback-taking cbOnce method.
The two methods install closures with identical registry behavior. -/
inductive Flavor where
  | promiseF
  | callbackF
  deriving DecidableEq, Repr

mutual
/-- A handler registered in the listener mapping. user is an arbitrary
user-supplied function, identified by a tag and performing a program of
hub operations when invoked (its invocations are recorded in the world
log). onceWrap is the innerHandler closure created by once: on invocation
it removes itself from its event name and then runs the wrapped handler.
raceSuccess and raceFailure are the successHandler and failureHandler
closures created by await and cbOnce: on invocation they remove both
members of their pair and record the settlement uid with the data. -/
inductive Handler where
  | user (tag : Nat) (prog : CmdList)
  | onceWrap (name : String) (inner : Handler)
  | raceSuccess (fl : Flavor) (uid : Nat) (succ fail : String)
  | raceFailure (fl : Flavor) (uid : Nat) (succ fail : String)
/-- One hub operation performed by the body of a user handler. -/
inductive Cmd where
  | add (name : String) (h : Handler)
  | remove (name : String) (h : Handler)
  | emitCmd (name : String) (d : Data)
  | throwE (eid : Nat)
/-- A program: the sequence of hub operations a user handler performs. -/
inductive CmdList where
  | nil
  | cons (c : Cmd) (rest : CmdList)
end

deriving instance DecidableEq for Handler
deriving instance DecidableEq for Cmd
deriving instance DecidableEq for CmdList
deriving instance Repr for Handler
deriving instance Repr for Cmd
deriving instance Repr for CmdList
deriving instance DecidableEq for Except

/-- The state of one UniversalEvents hub together with ghost observation
logs. validEvents is the _validEvents field (none when constructed with a
falsy argument); listeners is the _eventListeners object, a dictionary
from event name to the ordered array of handlers. The remaining fields
are not hub state but observation records: trace records every dispatch
of a handler by the emission loop, log records every execution of a user
handler body, settled records every settlement delivered by the await and
cbOnce internal handlers. -/
structure World where
  validEvents : Option (List String)
  listeners : List (String × List Handler)
  trace : List (Handler × Data)
  log : List (Nat × Data)
  settled : List (Flavor × Nat × Except Data Data)
  deriving DecidableEq, Repr

/-- Own-entry lookup in the _eventListeners object: the stored entry for
the key, ignoring the prototype chain. The full property read of the
source, which also sees the Object.prototype members the object literal
inherits, is jsGet; operations built directly on lookupL model the hub
for names that do not collide with those inherited properties, and their
prototype-aware counterparts carry the suffix P. -/
def lookupL (m : List (String × List Handler)) (k : String) : Option (List Handler) :=
  match m with
  | [] => none
  | (k1, v) :: rest => if k1 = k then some v else lookupL rest k

/-- Dictionary update in the _eventListeners object. -/
def setL (m : List (String × List Handler)) (k : String) (v : List Handler) :
    List (String × List Handler) :=
  match m with
  | [] => [(k, v)]
  | (k1, v1) :: rest => if k1 = k then (k, v) :: rest else (k1, v1) :: setL rest k v

/-- Array.prototype.indexOf restricted to handler arrays: the index of the
first occurrence, or minus one when absent. -/
def jsIndexOf (hs : List Handler) (h : Handler) : Int :=
  match hs with
  | [] => -1
  | x :: rest => if x = h then 0 else 1 + jsIndexOf rest h

/-- Array.prototype.splice with deleteCount one, returning the mutated
array: a negative start counts from the end and is clamped at zero, so a
start of minus one on a nonempty array deletes the last element. -/
def jsSplice1 (hs : List Handler) (start : Int) : List Handler :=
  let len : Int := hs.length
  let s : Int := if start < 0 then max (len + start) 0 else min start len
  hs.take s.toNat ++ hs.drop (s.toNat + 1)

/-- The _checkEventName method: rejects falsy names, then non-string
names, then names outside a configured allow-list. -/
def checkEventName (ve : Option (List String)) (v : JSValue) : Except EvError Unit :=
  if jsTruthy v = false then .error .invalidArgument
  else
    match v with
    | .vStr s =>
      match ve with
      | some allowed => if s ∈ allowed then .ok () else .error .unknownEvent
      | none => .ok ()
    | _ => .error .invalidArgument

/-- The membership part of validation specialized to string names. -/
def checkNameStr (ve : Option (List String)) (s : String) : Except EvError Unit :=
  if s = "" then .error .invalidArgument
  else
    match ve with
    | some allowed => if s ∈ allowed then .ok () else .error .unknownEvent
    | none => .ok ()

/-- The addEventListener method on names that do not collide with an
inherited Object.prototype property: validate, create the array for the
name if absent, push the handler at the end. The prototype-aware version
is addEventListenerP. -/
def addEventListener (v : JSValue) (h : Handler) (w : World) :
    Except EvError Unit × World :=
  match checkEventName w.validEvents v with
  | .error e => (.error e, w)
  | .ok _ =>
    match lookupL w.listeners v.asStr with
    | none => (.ok (), { w with listeners := setL w.listeners v.asStr [h] })
    | some hs => (.ok (), { w with listeners := setL w.listeners v.asStr (hs ++ [h]) })

/-- The on method, an alias of addEventListener. The source name on is a
reserved token in Lean, hence the longer name. -/
def onMethod (v : JSValue) (h : Handler) (w : World) : Except EvError Unit × World :=
  addEventListener v h w

/-- The removeEventListener method on names that do not collide with an
inherited Object.prototype property: validate, and when the dictionary
has an entry for the name, splice out the element at the indexOf position
of the handler. When the handler is absent indexOf yields minus one and
the splice deletes the last element of a nonempty array. The
prototype-aware version is removeEventListenerP. -/
def removeEventListener (v : JSValue) (h : Handler) (w : World) :
    Except EvError Unit × World :=
  match checkEventName w.validEvents v with
  | .error e => (.error e, w)
  | .ok _ =>
    match lookupL w.listeners v.asStr with
    | none => (.ok (), w)
    | some hs =>
      (.ok (), { w with listeners := setL w.listeners v.asStr (jsSplice1 hs (jsIndexOf hs h)) })

/-- The once method: validate, then register through addEventListener the
innerHandler closure that removes itself before running the handler. -/
def once (v : JSValue) (h : Handler) (w : World) : Except EvError Unit × World :=
  match checkEventName w.validEvents v with
  | .error e => (.error e, w)
  | .ok _ => addEventListener v (.onceWrap v.asStr h) w

/-- The await method: validate both names, reject an identical pair, then
register the successHandler on the success name and the failureHandler on
the failure name. The returned promise is identified by the uid under
which its settlement will be recorded. -/
def awaitOp (uid : Nat) (sv fv : JSValue) (w : World) : Except EvError Unit × World :=
  match checkEventName w.validEvents sv with
  | .error e => (.error e, w)
  | .ok _ =>
    match checkEventName w.validEvents fv with
    | .error e => (.error e, w)
    | .ok _ =>
      if sv = fv then (.error .invalidArgument, w)
      else
        match addEventListener sv (.raceSuccess .promiseF uid sv.asStr fv.asStr) w with
        | (.error e, w1) => (.error e, w1)
        | (.ok _, w1) =>
          match addEventListener fv (.raceFailure .promiseF uid sv.asStr fv.asStr) w1 with
          | (.error e, w2) => (.error e, w2)
          | (.ok _, w2) => (.ok (), w2)

/-- The cbOnce method: identical validation and registration to await,
with callback-flavored internal handlers; the callback is identified by
the uid under which its single invocation will be recorded. -/
def cbOnceOp (uid : Nat) (sv fv : JSValue) (w : World) : Except EvError Unit × World :=
  match checkEventName w.validEvents sv with
  | .error e => (.error e, w)
  | .ok _ =>
    match checkEventName w.validEvents fv with
    | .error e => (.error e, w)
    | .ok _ =>
      if sv = fv then (.error .invalidArgument, w)
      else
        match addEventListener sv (.raceSuccess .callbackF uid sv.asStr fv.asStr) w with
        | (.error e, w1) => (.error e, w1)
        | (.ok _, w1) =>
          match addEventListener fv (.raceFailure .callbackF uid sv.asStr fv.asStr) w1 with
          | (.error e, w2) => (.error e, w2)
          | (.ok _, w2) => (.ok (), w2)

/-- Interpreter call shapes: raising an event, running the snapshot loop,
invoking one handler, and running a user handler program. -/
inductive Call where
  | raise (v : JSValue) (d : Data)
  | snap (hs : List Handler) (d : Data)
  | hnd (h : Handler) (d : Data)
  | cmds (cs : CmdList) (d : Data)

/-- The fueled interpreter of dispatch. The raise case is the raiseEvent
method: validate, look up the handler array, return false when it is
absent or empty, otherwise run a snapshot of it and return true. The snap
case is the for loop over the snapshot copy, recording each dispatch in
the trace and stopping at the first error. The hnd case invokes one
handler: a user handler records its execution in the log and runs its
program; a onceWrap removes itself and runs its inner handler; the race
handlers remove both members of their pair and record the settlement. The
cmds case runs a user program, whose emitCmd reenters raise. Fuel only
bounds depth; no source behavior corresponds to outOfFuel. The Boolean
result is meaningful for raise and is true elsewhere. -/
def step : Nat → Call → World → Except EvError Bool × World
  | 0, _, w => (.error .outOfFuel, w)
  | fuel + 1, c, w =>
    match c with
    | .raise v d =>
      match checkEventName w.validEvents v with
      | .error e => (.error e, w)
      | .ok _ =>
        match lookupL w.listeners v.asStr with
        | none => (.ok false, w)
        | some hs =>
          if hs.length > 0 then
            match step fuel (.snap hs d) w with
            | (.error e, w2) => (.error e, w2)
            | (.ok _, w2) => (.ok true, w2)
          else (.ok false, w)
    | .snap hs d =>
      match hs with
      | [] => (.ok true, w)
      | h :: rest =>
        match step fuel (.hnd h d) { w with trace := w.trace ++ [(h, d)] } with
        | (.error e, w2) => (.error e, w2)
        | (.ok _, w2) => step fuel (.snap rest d) w2
    | .hnd h d =>
      match h with
      | .user tag prog =>
        step fuel (.cmds prog d) { w with log := w.log ++ [(tag, d)] }
      | .onceWrap n inner =>
        match removeEventListener (.vStr n) (.onceWrap n inner) w with
        | (.error e, w2) => (.error e, w2)
        | (.ok _, w2) => step fuel (.hnd inner d) w2
      | .raceSuccess fl uid s f =>
        match removeEventListener (.vStr s) (.raceSuccess fl uid s f) w with
        | (.error e, w2) => (.error e, w2)
        | (.ok _, w2) =>
          match removeEventListener (.vStr f) (.raceFailure fl uid s f) w2 with
          | (.error e, w3) => (.error e, w3)
          | (.ok _, w3) => (.ok true, { w3 with settled := w3.settled ++ [(fl, uid, .ok d)] })
      | .raceFailure fl uid s f =>
        match removeEventListener (.vStr s) (.raceSuccess fl uid s f) w with
        | (.error e, w2) => (.error e, w2)
        | (.ok _, w2) =>
          match removeEventListener (.vStr f) (.raceFailure fl uid s f) w2 with
          | (.error e, w3) => (.error e, w3)
          | (.ok _, w3) => (.ok true, { w3 with settled := w3.settled ++ [(fl, uid, .error d)] })
    | .cmds cs d =>
      match cs with
      | .nil => (.ok true, w)
      | .cons cmd rest =>
        match cmd with
        | .add n h =>
          match addEventListener (.vStr n) h w with
          | (.error e, w2) => (.error e, w2)
          | (.ok _, w2) => step fuel (.cmds rest d) w2
        | .remove n h =>
          match removeEventListener (.vStr n) h w with
          | (.error e, w2) => (.error e, w2)
          | (.ok _, w2) => step fuel (.cmds rest d) w2
        | .emitCmd n d1 =>
          match step fuel (.raise (.vStr n) d1) w with
          | (.error e, w2) => (.error e, w2)
          | (.ok _, w2) => step fuel (.cmds rest d) w2
        | .throwE eid => (.error (.userError eid), w)

/-- The raiseEvent method, as the fueled interpreter applied to a raise
call. -/
def raiseEvent (fuel : Nat) (v : JSValue) (d : Data) (w : World) :
    Except EvError Bool × World :=
  step fuel (.raise v d) w

/-- The emit method, an alias of raiseEvent. -/
def emit (fuel : Nat) (v : JSValue) (d : Data) (w : World) :
    Except EvError Bool × World :=
  raiseEvent fuel v d w

/-- Constructor arguments: absent, null, a bare string, or an iterable of
strings such as an array or a set. -/
inductive CtorArg where
  | undef
  | null
  | str (s : String)
  | strs (l : List String)
  deriving DecidableEq, Repr

/-- The constructor: a falsy argument, which includes the empty string,
yields no restriction; a nonempty bare string is rejected; any other
iterable is materialized into the allow-list set. -/
def mkUniversalEvents : CtorArg → Except EvError World
  | .undef => .ok ⟨none, [], [], [], []⟩
  | .null => .ok ⟨none, [], [], [], []⟩
  | .str s => if s = "" then .ok ⟨none, [], [], [], []⟩ else .error .invalidArgument
  | .strs l => .ok ⟨some l, [], [], [], []⟩

/-- The _eventListeners object is a plain object literal, so a property
read on it falls through to Object.prototype when the key has no own
entry. This table lists the inherited property names together with the
length the read value exposes: for the inherited methods this is the
declared parameter count of the function; for the __proto__ accessor the
read yields Object.prototype itself, whose length reads as undefined, and
since the comparison undefined > 0 is false the encoding zero reproduces
the dispatch behavior. Names outside the table have no inherited entry. -/
def protoArity (s : String) : Option Nat :=
  if s = "hasOwnProperty" then some 1
  else if s = "isPrototypeOf" then some 1
  else if s = "propertyIsEnumerable" then some 1
  else if s = "valueOf" then some 0
  else if s = "toString" then some 0
  else if s = "toLocaleString" then some 0
  else if s = "constructor" then some 1
  else if s = "__defineGetter__" then some 2
  else if s = "__defineSetter__" then some 2
  else if s = "__lookupGetter__" then some 1
  else if s = "__lookupSetter__" then some 1
  else if s = "__proto__" then some 0
  else none

/-- True when the name does not collide with an inherited
Object.prototype property of the listener dictionary. -/
def noProto (s : String) : Bool :=
  match protoArity s with
  | none => true
  | some _ => false

/-- The result of the property read on the _eventListeners object: an own
entry when one was stored, otherwise the inherited Object.prototype
member when the name collides with one, otherwise missing, which stands
for the undefined the source reads. -/
inductive JsProp where
  | missing
  | own (hs : List Handler)
  | inherited (arity : Nat)
  deriving DecidableEq, Repr

/-- The property read this._eventListeners[k], prototype chain included:
an own entry shadows the inherited one. -/
def jsGet (m : List (String × List Handler)) (k : String) : JsProp :=
  match lookupL m k with
  | some hs => .own hs
  | none =>
    match protoArity k with
    | some n => .inherited n
    | none => .missing

/-- The addEventListener method with the prototype chain of the listener
dictionary modeled: when the name has no own entry but collides with an
inherited Object.prototype member, the creation guard sees a truthy
value, skips the array creation, and the push on the inherited non-array
value throws a TypeError. On names without such a collision this agrees
with addEventListener. Own entries under inherited names are unreachable
through the API, since the guard never lets them be created. -/
def addEventListenerP (v : JSValue) (h : Handler) (w : World) :
    Except EvError Unit × World :=
  match checkEventName w.validEvents v with
  | .error e => (.error e, w)
  | .ok _ =>
    match jsGet w.listeners v.asStr with
    | .missing => (.ok (), { w with listeners := setL w.listeners v.asStr [h] })
    | .own hs => (.ok (), { w with listeners := setL w.listeners v.asStr (hs ++ [h]) })
    | .inherited _ => (.error .typeError, w)

/-- The on method, alias of addEventListenerP, prototype chain modeled. -/
def onMethodP (v : JSValue) (h : Handler) (w : World) : Except EvError Unit × World :=
  addEventListenerP v h w

/-- The removeEventListener method with the prototype chain modeled: an
inherited value is truthy, so the code reaches handlers.indexOf on a
value that is not an array and throws a TypeError. On names without a
collision this agrees with removeEventListener. -/
def removeEventListenerP (v : JSValue) (h : Handler) (w : World) :
    Except EvError Unit × World :=
  match checkEventName w.validEvents v with
  | .error e => (.error e, w)
  | .ok _ =>
    match jsGet w.listeners v.asStr with
    | .missing => (.ok (), w)
    | .own hs =>
      (.ok (), { w with listeners := setL w.listeners v.asStr (jsSplice1 hs (jsIndexOf hs h)) })
    | .inherited _ => (.error .typeError, w)

/-- The once method with the prototype chain modeled. -/
def onceP (v : JSValue) (h : Handler) (w : World) : Except EvError Unit × World :=
  match checkEventName w.validEvents v with
  | .error e => (.error e, w)
  | .ok _ => addEventListenerP v (.onceWrap v.asStr h) w

/-- The await method with the prototype chain modeled. -/
def awaitOpP (uid : Nat) (sv fv : JSValue) (w : World) : Except EvError Unit × World :=
  match checkEventName w.validEvents sv with
  | .error e => (.error e, w)
  | .ok _ =>
    match checkEventName w.validEvents fv with
    | .error e => (.error e, w)
    | .ok _ =>
      if sv = fv then (.error .invalidArgument, w)
      else
        match addEventListenerP sv (.raceSuccess .promiseF uid sv.asStr fv.asStr) w with
        | (.error e, w1) => (.error e, w1)
        | (.ok _, w1) =>
          match addEventListenerP fv (.raceFailure .promiseF uid sv.asStr fv.asStr) w1 with
          | (.error e, w2) => (.error e, w2)
          | (.ok _, w2) => (.ok (), w2)

/-- The cbOnce method with the prototype chain modeled. -/
def cbOnceOpP (uid : Nat) (sv fv : JSValue) (w : World) : Except EvError Unit × World :=
  match checkEventName w.validEvents sv with
  | .error e => (.error e, w)
  | .ok _ =>
    match checkEventName w.validEvents fv with
    | .error e => (.error e, w)
    | .ok _ =>
      if sv = fv then (.error .invalidArgument, w)
      else
        match addEventListenerP sv (.raceSuccess .callbackF uid sv.asStr fv.asStr) w with
        | (.error e, w1) => (.error e, w1)
        | (.ok _, w1) =>
          match addEventListenerP fv (.raceFailure .callbackF uid sv.asStr fv.asStr) w1 with
          | (.error e, w2) => (.error e, w2)
          | (.ok _, w2) => (.ok (), w2)

/-- The fueled interpreter of dispatch with the prototype chain of the
listener dictionary modeled throughout. The raise case is raiseEvent: the
property read may now yield an inherited Object.prototype member, which
is truthy; when its length is positive the guard passes and the slice
call on the non-array throws a TypeError, and when its length reads as
zero or undefined the guard fails and raiseEvent returns false. The other
cases mirror step, with every listener mutation performed through the
prototype-aware methods. -/
def stepP : Nat → Call → World → Except EvError Bool × World
  | 0, _, w => (.error .outOfFuel, w)
  | fuel + 1, c, w =>
    match c with
    | .raise v d =>
      match checkEventName w.validEvents v with
      | .error e => (.error e, w)
      | .ok _ =>
        match jsGet w.listeners v.asStr with
        | .missing => (.ok false, w)
        | .inherited n =>
          if n > 0 then (.error .typeError, w) else (.ok false, w)
        | .own hs =>
          if hs.length > 0 then
            match stepP fuel (.snap hs d) w with
            | (.error e, w2) => (.error e, w2)
            | (.ok _, w2) => (.ok true, w2)
          else (.ok false, w)
    | .snap hs d =>
      match hs with
      | [] => (.ok true, w)
      | h :: rest =>
        match stepP fuel (.hnd h d) { w with trace := w.trace ++ [(h, d)] } with
        | (.error e, w2) => (.error e, w2)
        | (.ok _, w2) => stepP fuel (.snap rest d) w2
    | .hnd h d =>
      match h with
      | .user tag prog =>
        stepP fuel (.cmds prog d) { w with log := w.log ++ [(tag, d)] }
      | .onceWrap n inner =>
        match removeEventListenerP (.vStr n) (.onceWrap n inner) w with
        | (.error e, w2) => (.error e, w2)
        | (.ok _, w2) => stepP fuel (.hnd inner d) w2
      | .raceSuccess fl uid s f =>
        match removeEventListenerP (.vStr s) (.raceSuccess fl uid s f) w with
        | (.error e, w2) => (.error e, w2)
        | (.ok _, w2) =>
          match removeEventListenerP (.vStr f) (.raceFailure fl uid s f) w2 with
          | (.error e, w3) => (.error e, w3)
          | (.ok _, w3) => (.ok true, { w3 with settled := w3.settled ++ [(fl, uid, .ok d)] })
      | .raceFailure fl uid s f =>
        match removeEventListenerP (.vStr s) (.raceSuccess fl uid s f) w with
        | (.error e, w2) => (.error e, w2)
        | (.ok _, w2) =>
          match removeEventListenerP (.vStr f) (.raceFailure fl uid s f) w2 with
          | (.error e, w3) => (.error e, w3)
          | (.ok _, w3) => (.ok true, { w3 with settled := w3.settled ++ [(fl, uid, .error d)] })
    | .cmds cs d =>
      match cs with
      | .nil => (.ok true, w)
      | .cons cmd rest =>
        match cmd with
        | .add n h =>
          match addEventListenerP (.vStr n) h w with
          | (.error e, w2) => (.error e, w2)
          | (.ok _, w2) => stepP fuel (.cmds rest d) w2
        | .remove n h =>
          match removeEventListenerP (.vStr n) h w with
          | (.error e, w2) => (.error e, w2)
          | (.ok _, w2) => stepP fuel (.cmds rest d) w2
        | .emitCmd n d1 =>
          match stepP fuel (.raise (.vStr n) d1) w with
          | (.error e, w2) => (.error e, w2)
          | (.ok _, w2) => stepP fuel (.cmds rest d) w2
        | .throwE eid => (.error (.userError eid), w)

/-- The raiseEvent method with the prototype chain modeled. -/
def raiseEventP (fuel : Nat) (v : JSValue) (d : Data) (w : World) :
    Except EvError Bool × World :=
  stepP fuel (.raise v d) w

/-- The emit method, an alias of raiseEventP. -/
def emitP (fuel : Nat) (v : JSValue) (d : Data) (w : World) :
    Except EvError Bool × World :=
  raiseEventP fuel v d w

/-- Validation of a string-valued name coincides with the string-level
check: a string is truthy exactly when it is nonempty. -/
theorem checkEventName_str (ve : Option (List String)) (s : String) :
    checkEventName ve (.vStr s) = checkNameStr ve s := by
  by_cases h : s = "" <;> simp [checkEventName, checkNameStr, jsTruthy, h]

/-- Looking up the key just stored yields the stored value. -/
theorem lookupL_setL_self (m : List (String × List Handler)) (k : String)
    (v : List Handler) : lookupL (setL m k v) k = some v := by
  induction m with
  | nil => simp [setL, lookupL]
  | cons p rest ih =>
    by_cases h : p.1 = k <;> simp [setL, lookupL, h, ih]

/-- Storing under one key leaves lookups of other keys unchanged. -/
theorem lookupL_setL_ne (m : List (String × List Handler)) (k k1 : String)
    (v : List Handler) (hne : k1 ≠ k) : lookupL (setL m k v) k1 = lookupL m k1 := by
  have hne2 : ¬(k = k1) := fun hh => hne hh.symm
  induction m with
  | nil => simp [setL, lookupL, hne2]
  | cons p rest ih =>
    by_cases h : p.1 = k
    · simp [setL, lookupL, h, hne2]
    · simp only [setL, lookupL, if_neg h]
      by_cases h2 : p.1 = k1 <;> simp [lookupL, h2, ih]

/-- A successful validation lets addEventListener succeed, changing only
the listener mapping. -/
theorem addEventListener_ok (v : JSValue) (h : Handler) (w : World)
    (hc : checkEventName w.validEvents v = .ok ()) :
    ∃ l, addEventListener v h w = (.ok (), { w with listeners := l }) := by
  unfold addEventListener
  rw [hc]
  cases hl : lookupL w.listeners v.asStr <;> exact ⟨_, rfl⟩

/-- A successful validation lets removeEventListener succeed, changing
only the listener mapping. -/
theorem removeEventListener_ok (v : JSValue) (h : Handler) (w : World)
    (hc : checkEventName w.validEvents v = .ok ()) :
    ∃ l, removeEventListener v h w = (.ok (), { w with listeners := l }) := by
  unfold removeEventListener
  rw [hc]
  cases hl : lookupL w.listeners v.asStr
  · exact ⟨w.listeners, rfl⟩
  · exact ⟨_, rfl⟩

/-- The addEventListener method never changes the allow-list. -/
theorem addEventListener_validEvents (v : JSValue) (h : Handler) (w : World) :
    (addEventListener v h w).2.validEvents = w.validEvents := by
  unfold addEventListener
  cases checkEventName w.validEvents v
  · rfl
  · cases lookupL w.listeners v.asStr <;> rfl

/-- The removeEventListener method never changes the allow-list. -/
theorem removeEventListener_validEvents (v : JSValue) (h : Handler) (w : World) :
    (removeEventListener v h w).2.validEvents = w.validEvents := by
  unfold removeEventListener
  cases checkEventName w.validEvents v
  · rfl
  · cases lookupL w.listeners v.asStr <;> rfl

/-- The interpreter never changes the allow-list field: dispatch mutates
only the listener mapping and the observation records. -/
theorem step_validEvents : ∀ (fuel : Nat) (c : Call) (w : World),
    (step fuel c w).2.validEvents = w.validEvents := by
  intro fuel
  induction fuel with
  | zero => intro c w; rfl
  | succ n ih =>
    intro c w
    cases c with
    | raise v d =>
      simp only [step]
      split
      · rfl
      · split
        · rfl
        · split
          · split
            · rename_i heq
              have h2 := congrArg (fun p => p.2.validEvents) heq
              dsimp only at h2
              rw [ih] at h2
              exact h2.symm
            · rename_i heq
              have h2 := congrArg (fun p => p.2.validEvents) heq
              dsimp only at h2
              rw [ih] at h2
              exact h2.symm
          · rfl
    | snap hs d =>
      simp only [step]
      split
      · rfl
      · split
        · rename_i heq
          have h2 := congrArg (fun p => p.2.validEvents) heq
          dsimp only at h2
          rw [ih] at h2
          exact h2.symm
        · rename_i heq
          have h2 := congrArg (fun p => p.2.validEvents) heq
          dsimp only at h2
          rw [ih] at h2
          rw [ih]
          exact h2.symm
    | hnd h d =>
      simp only [step]
      split
      · rw [ih]
      · split
        · rename_i heq
          have h2 := congrArg (fun p => p.2.validEvents) heq
          dsimp only at h2
          rw [removeEventListener_validEvents] at h2
          exact h2.symm
        · rename_i heq
          have h2 := congrArg (fun p => p.2.validEvents) heq
          dsimp only at h2
          rw [removeEventListener_validEvents] at h2
          rw [ih]
          exact h2.symm
      · split
        · rename_i heq
          have h2 := congrArg (fun p => p.2.validEvents) heq
          dsimp only at h2
          rw [removeEventListener_validEvents] at h2
          exact h2.symm
        · rename_i heq2
          split
          · rename_i heq3
            have h2 := congrArg (fun p => p.2.validEvents) heq2
            have h3 := congrArg (fun p => p.2.validEvents) heq3
            dsimp only at h2 h3
            rw [removeEventListener_validEvents] at h2 h3
            exact (h2.trans h3).symm
          · rename_i heq3
            have h2 := congrArg (fun p => p.2.validEvents) heq2
            have h3 := congrArg (fun p => p.2.validEvents) heq3
            dsimp only at h2 h3
            rw [removeEventListener_validEvents] at h2 h3
            exact (h2.trans h3).symm
      · split
        · rename_i heq
          have h2 := congrArg (fun p => p.2.validEvents) heq
          dsimp only at h2
          rw [removeEventListener_validEvents] at h2
          exact h2.symm
        · rename_i heq2
          split
          · rename_i heq3
            have h2 := congrArg (fun p => p.2.validEvents) heq2
            have h3 := congrArg (fun p => p.2.validEvents) heq3
            dsimp only at h2 h3
            rw [removeEventListener_validEvents] at h2 h3
            exact (h2.trans h3).symm
          · rename_i heq3
            have h2 := congrArg (fun p => p.2.validEvents) heq2
            have h3 := congrArg (fun p => p.2.validEvents) heq3
            dsimp only at h2 h3
            rw [removeEventListener_validEvents] at h2 h3
            exact (h2.trans h3).symm
    | cmds cs d =>
      simp only [step]
      split
      · rfl
      · split
        · split
          · rename_i heq
            have h2 := congrArg (fun p => p.2.validEvents) heq
            dsimp only at h2
            rw [addEventListener_validEvents] at h2
            exact h2.symm
          · rename_i heq
            have h2 := congrArg (fun p => p.2.validEvents) heq
            dsimp only at h2
            rw [addEventListener_validEvents] at h2
            rw [ih]
            exact h2.symm
        · split
          · rename_i heq
            have h2 := congrArg (fun p => p.2.validEvents) heq
            dsimp only at h2
            rw [removeEventListener_validEvents] at h2
            exact h2.symm
          · rename_i heq
            have h2 := congrArg (fun p => p.2.validEvents) heq
            dsimp only at h2
            rw [removeEventListener_validEvents] at h2
            rw [ih]
            exact h2.symm
        · split
          · rename_i heq
            have h2 := congrArg (fun p => p.2.validEvents) heq
            dsimp only at h2
            rw [ih] at h2
            exact h2.symm
          · rename_i heq
            have h2 := congrArg (fun p => p.2.validEvents) heq
            dsimp only at h2
            rw [ih] at h2
            rw [ih]
            exact h2.symm
        · rfl

/-- True exactly when a validation result is a success. -/
def okB (r : Except EvError Unit) : Bool :=
  match r with
  | .ok _ => true
  | .error _ => false

/-- A command is benign when it only adds or removes a listener under a
name that passes validation; such a command neither throws nor reenters
dispatch. -/
def cmdB (ve : Option (List String)) : Cmd → Bool
  | .add n _ => okB (checkNameStr ve n)
  | .remove n _ => okB (checkNameStr ve n)
  | .emitCmd _ _ => false
  | .throwE _ => false

/-- A program is benign when all its commands are. -/
def cmdsB (ve : Option (List String)) : CmdList → Bool
  | .nil => true
  | .cons c rest => cmdB ve c && cmdsB ve rest

/-- A handler is benign when invoking it only mutates the listener
registry through validly named additions and removals: it cannot throw
and cannot reenter dispatch. -/
def hB (ve : Option (List String)) : Handler → Bool
  | .user _ prog => cmdsB ve prog
  | .onceWrap n inner => okB (checkNameStr ve n) && hB ve inner
  | .raceSuccess _ _ s f => okB (checkNameStr ve s) && okB (checkNameStr ve f)
  | .raceFailure _ _ s f => okB (checkNameStr ve s) && okB (checkNameStr ve f)

/-- Fuel sufficient to run a benign program. -/
def csFuel : CmdList → Nat
  | .nil => 1
  | .cons _ rest => csFuel rest + 1

/-- Fuel sufficient to invoke a benign handler. -/
def hFuel : Handler → Nat
  | .user _ prog => csFuel prog + 1
  | .onceWrap _ inner => hFuel inner + 1
  | .raceSuccess _ _ _ _ => 1
  | .raceFailure _ _ _ _ => 1

/-- Fuel sufficient to run the snapshot loop over benign handlers. -/
def snapFuel : List Handler → Nat
  | [] => 1
  | h :: rest => max (hFuel h) (snapFuel rest) + 1

/-- A command is benign for the prototype-aware semantics when it adds or
removes a listener under a name that passes validation and avoids the
inherited Object.prototype names, so it can neither throw nor reenter
dispatch. -/
def cmdBP (ve : Option (List String)) : Cmd → Bool
  | .add n _ => okB (checkNameStr ve n) && noProto n
  | .remove n _ => okB (checkNameStr ve n) && noProto n
  | .emitCmd _ _ => false
  | .throwE _ => false

/-- A program is benign for the prototype-aware semantics when all its
commands are. -/
def cmdsBP (ve : Option (List String)) : CmdList → Bool
  | .nil => true
  | .cons c rest => cmdBP ve c && cmdsBP ve rest

/-- A handler is benign for the prototype-aware semantics when invoking
it only mutates the listener registry through validly named additions and
removals avoiding the inherited Object.prototype names: it cannot throw
and cannot reenter dispatch. -/
def hBP (ve : Option (List String)) : Handler → Bool
  | .user _ prog => cmdsBP ve prog
  | .onceWrap n inner => okB (checkNameStr ve n) && noProto n && hBP ve inner
  | .raceSuccess _ _ s f =>
      okB (checkNameStr ve s) && noProto s && okB (checkNameStr ve f) && noProto f
  | .raceFailure _ _ s f =>
      okB (checkNameStr ve s) && noProto s && okB (checkNameStr ve f) && noProto f

theorem okB_iff (r : Except EvError Unit) : okB r = true ↔ r = .ok () := by
  cases r with
  | ok u => cases u; simp [okB]
  | error e => simp [okB]

theorem csFuel_pos (cs : CmdList) : 1 ≤ csFuel cs := by
  cases cs <;> simp [csFuel]

theorem hFuel_pos (h : Handler) : 1 ≤ hFuel h := by
  cases h <;> simp [hFuel]

theorem snapFuel_pos (hs : List Handler) : 1 ≤ snapFuel hs := by
  cases hs <;> simp [snapFuel]

/-- Running a benign program succeeds and leaves the allow-list and the
dispatch trace untouched: only the listener registry may change. -/
theorem cmds_benign : ∀ (fuel : Nat) (cs : CmdList) (d : Data) (w : World),
    cmdsB w.validEvents cs = true → csFuel cs ≤ fuel →
    ∃ w2, step fuel (.cmds cs d) w = (.ok true, w2) ∧
      w2.validEvents = w.validEvents ∧ w2.trace = w.trace := by
  intro fuel
  induction fuel with
  | zero =>
    intro cs d w hb hf
    exact absurd (Nat.le_trans (csFuel_pos cs) hf) (by omega)
  | succ n ih =>
    intro cs d w hb hf
    cases cs with
    | nil => exact ⟨w, rfl, rfl, rfl⟩
    | cons c rest =>
      have hf2 : csFuel rest ≤ n := by simp only [csFuel] at hf; omega
      cases c with
      | add nm h =>
        simp only [cmdsB, cmdB, Bool.and_eq_true] at hb
        have hc : checkEventName w.validEvents (.vStr nm) = .ok () := by
          rw [checkEventName_str]; exact (okB_iff _).mp hb.1
        obtain ⟨l, hadd⟩ := addEventListener_ok (.vStr nm) h w hc
        obtain ⟨w2, hs2, hv2, ht2⟩ := ih rest d { w with listeners := l } hb.2 hf2
        refine ⟨w2, ?_, hv2, ht2⟩
        simp only [step, hadd]
        exact hs2
      | remove nm h =>
        simp only [cmdsB, cmdB, Bool.and_eq_true] at hb
        have hc : checkEventName w.validEvents (.vStr nm) = .ok () := by
          rw [checkEventName_str]; exact (okB_iff _).mp hb.1
        obtain ⟨l, hrm⟩ := removeEventListener_ok (.vStr nm) h w hc
        obtain ⟨w2, hs2, hv2, ht2⟩ := ih rest d { w with listeners := l } hb.2 hf2
        refine ⟨w2, ?_, hv2, ht2⟩
        simp only [step, hrm]
        exact hs2
      | emitCmd nm d1 => simp [cmdsB, cmdB] at hb
      | throwE eid => simp [cmdsB, cmdB] at hb

/-- Invoking a benign handler succeeds and leaves the allow-list and the
dispatch trace untouched. -/
theorem hnd_benign : ∀ (fuel : Nat) (h : Handler) (d : Data) (w : World),
    hB w.validEvents h = true → hFuel h ≤ fuel →
    ∃ w2, step fuel (.hnd h d) w = (.ok true, w2) ∧
      w2.validEvents = w.validEvents ∧ w2.trace = w.trace := by
  intro fuel
  induction fuel with
  | zero =>
    intro h d w hb hf
    exact absurd (Nat.le_trans (hFuel_pos h) hf) (by omega)
  | succ n ih =>
    intro h d w hb hf
    cases h with
    | user tag prog =>
      have hf2 : csFuel prog ≤ n := by simp only [hFuel] at hf; omega
      obtain ⟨w2, hs2, hv2, ht2⟩ :=
        cmds_benign n prog d { w with log := w.log ++ [(tag, d)] } hb hf2
      refine ⟨w2, ?_, hv2, ht2⟩
      simp only [step]
      exact hs2
    | onceWrap nm inner =>
      simp only [hB, Bool.and_eq_true] at hb
      have hc : checkEventName w.validEvents (.vStr nm) = .ok () := by
        rw [checkEventName_str]; exact (okB_iff _).mp hb.1
      obtain ⟨l, hrm⟩ := removeEventListener_ok (.vStr nm) (.onceWrap nm inner) w hc
      have hf2 : hFuel inner ≤ n := by simp only [hFuel] at hf; omega
      obtain ⟨w2, hs2, hv2, ht2⟩ := ih inner d { w with listeners := l } hb.2 hf2
      refine ⟨w2, ?_, hv2, ht2⟩
      simp only [step, hrm]
      exact hs2
    | raceSuccess fl uid s f =>
      simp only [hB, Bool.and_eq_true] at hb
      have hc1 : checkEventName w.validEvents (.vStr s) = .ok () := by
        rw [checkEventName_str]; exact (okB_iff _).mp hb.1
      have hc2 : checkEventName w.validEvents (.vStr f) = .ok () := by
        rw [checkEventName_str]; exact (okB_iff _).mp hb.2
      obtain ⟨l1, hrm1⟩ := removeEventListener_ok (.vStr s) (.raceSuccess fl uid s f) w hc1
      obtain ⟨l2, hrm2⟩ :=
        removeEventListener_ok (.vStr f) (.raceFailure fl uid s f) { w with listeners := l1 } hc2
      refine ⟨{ w with listeners := l2, settled := w.settled ++ [(fl, uid, Except.ok d)] }, ?_, rfl, rfl⟩
      simp only [step, hrm1, hrm2]
    | raceFailure fl uid s f =>
      simp only [hB, Bool.and_eq_true] at hb
      have hc1 : checkEventName w.validEvents (.vStr s) = .ok () := by
        rw [checkEventName_str]; exact (okB_iff _).mp hb.1
      have hc2 : checkEventName w.validEvents (.vStr f) = .ok () := by
        rw [checkEventName_str]; exact (okB_iff _).mp hb.2
      obtain ⟨l1, hrm1⟩ := removeEventListener_ok (.vStr s) (.raceSuccess fl uid s f) w hc1
      obtain ⟨l2, hrm2⟩ :=
        removeEventListener_ok (.vStr f) (.raceFailure fl uid s f) { w with listeners := l1 } hc2
      refine ⟨{ w with listeners := l2, settled := w.settled ++ [(fl, uid, Except.error d)] }, ?_, rfl, rfl⟩
      simp only [step, hrm1, hrm2]

/-- Running the snapshot loop over benign handlers succeeds and appends
exactly one dispatch record per snapshot element, in snapshot order, all
carrying the emitted data. -/
theorem snap_benign : ∀ (fuel : Nat) (hs : List Handler) (d : Data) (w : World),
    (∀ h ∈ hs, hB w.validEvents h = true) → snapFuel hs ≤ fuel →
    ∃ w2, step fuel (.snap hs d) w = (.ok true, w2) ∧
      w2.validEvents = w.validEvents ∧
      w2.trace = w.trace ++ hs.map (fun h => (h, d)) := by
  intro fuel
  induction fuel with
  | zero =>
    intro hs d w hb hf
    exact absurd (Nat.le_trans (snapFuel_pos hs) hf) (by omega)
  | succ n ih =>
    intro hs d w hb hf
    cases hs with
    | nil => exact ⟨w, rfl, rfl, by simp⟩
    | cons h rest =>
      simp only [snapFuel] at hf
      have hm : max (hFuel h) (snapFuel rest) ≤ n := Nat.le_of_succ_le_succ hf
      have hfh : hFuel h ≤ n := le_trans (le_max_left _ _) hm
      have hfr : snapFuel rest ≤ n := le_trans (le_max_right _ _) hm
      obtain ⟨w1, hs1, hv1, ht1⟩ :=
        hnd_benign n h d { w with trace := w.trace ++ [(h, d)] }
          (hb h (List.mem_cons_self h rest)) hfh
      obtain ⟨w2, hs2, hv2, ht2⟩ := ih rest d w1
        (by
          intro x hx
          rw [hv1]
          exact hb x (List.mem_cons_of_mem h hx))
        hfr
      refine ⟨w2, ?_, by rw [hv2, hv1], ?_⟩
      · simp only [step, hs1]
        exact hs2
      · rw [ht2, ht1]
        simp

/-- Running the snapshot loop over a benign prefix followed by a throwing
user handler propagates the user error and dispatches exactly the prefix
and the thrower, never the handlers after it. -/
theorem snap_throw : ∀ (fuel : Nat) (pre : List Handler) (tag eid : Nat)
    (restc : CmdList) (post : List Handler) (d : Data) (w : World),
    (∀ h ∈ pre, hB w.validEvents h = true) → snapFuel pre + 2 ≤ fuel →
    ∃ w2,
      step fuel (.snap (pre ++ Handler.user tag (.cons (.throwE eid) restc) :: post) d) w
        = (.error (.userError eid), w2) ∧
      w2.trace = w.trace ++
        (pre ++ [Handler.user tag (.cons (.throwE eid) restc)]).map (fun h => (h, d)) := by
  intro fuel
  induction fuel with
  | zero =>
    intro pre tag eid restc post d w hb hf
    omega
  | succ n ih =>
    intro pre tag eid restc post d w hb hf
    cases pre with
    | nil =>
      obtain ⟨m, rfl⟩ : ∃ m, n = m + 1 := ⟨n - 1, by simp [snapFuel] at hf; omega⟩
      obtain ⟨k, rfl⟩ : ∃ k, m = k + 1 := ⟨m - 1, by simp [snapFuel] at hf; omega⟩
      refine ⟨{ w with
        trace := w.trace ++ [(Handler.user tag (.cons (.throwE eid) restc), d)],
        log := w.log ++ [(tag, d)] }, ?_, by simp⟩
      simp only [List.nil_append, step]
    | cons h pre2 =>
      simp only [snapFuel] at hf
      have hfh : hFuel h ≤ n := by
        have := le_max_left (hFuel h) (snapFuel pre2); omega
      have hfr : snapFuel pre2 + 2 ≤ n := by
        have := le_max_right (hFuel h) (snapFuel pre2); omega
      obtain ⟨w1, hs1, hv1, ht1⟩ :=
        hnd_benign n h d { w with trace := w.trace ++ [(h, d)] }
          (hb h (List.mem_cons_self h pre2)) hfh
      obtain ⟨w2, hs2, ht2⟩ := ih pre2 tag eid restc post d w1
        (by
          intro x hx
          rw [hv1]
          exact hb x (List.mem_cons_of_mem h hx))
        hfr
      refine ⟨w2, ?_, ?_⟩
      · simp only [List.cons_append, step, hs1]
        exact hs2
      · rw [ht2, ht1]
        simp

/-- C7: when a handler in the snapshot throws, the error propagates
synchronously out of emit, and the handlers later in the snapshot are not
dispatched: the dispatch trace of the emission stops exactly at the
throwing handler. -/
theorem raiseEvent_throw_propagates (w : World) (s : String) (d : Data) (fuel : Nat)
    (pre : List Handler) (tag eid : Nat) (restc : CmdList) (post : List Handler)
    (hc : checkNameStr w.validEvents s = .ok ())
    (hl : lookupL w.listeners s
      = some (pre ++ Handler.user tag (.cons (.throwE eid) restc) :: post))
    (hb : ∀ h ∈ pre, hB w.validEvents h = true)
    (hf : snapFuel pre + 3 ≤ fuel) :
    ∃ w2, raiseEvent fuel (.vStr s) d w = (.error (.userError eid), w2) ∧
      w2.trace = w.trace ++
        (pre ++ [Handler.user tag (.cons (.throwE eid) restc)]).map (fun h => (h, d)) := by
  obtain ⟨n, rfl⟩ : ∃ n, fuel = n + 1 := ⟨fuel - 1, by omega⟩
  obtain ⟨w2, hstep, ht⟩ := snap_throw n pre tag eid restc post d w hb (by omega)
  have hlen : (pre ++ Handler.user tag (.cons (.throwE eid) restc) :: post).length > 0 := by
    simp
  refine ⟨w2, ?_, ht⟩
  simp only [raiseEvent, step, checkEventName_str, hc, JSValue.asStr, hl, if_pos hlen, hstep]

/-- Witness for C7: with a throwing first handler and a second handler
behind it, emit propagates the user error and the second handler is never
dispatched. -/
theorem raiseEvent_throw_propagates_witness :
    ∃ w2, raiseEvent 4 (.vStr "e") (0 : Data)
        ⟨none, [("e", [Handler.user 5 (.cons (.throwE 9) .nil), Handler.user 6 .nil])],
          [], [], []⟩
      = (.error (.userError 9), w2) ∧
      w2.trace = [(Handler.user 5 (CmdList.cons (Cmd.throwE 9) CmdList.nil), (0 : Data))] :=
  raiseEvent_throw_propagates
    ⟨none, [("e", [Handler.user 5 (.cons (.throwE 9) .nil), Handler.user 6 .nil])], [], [], []⟩
    "e" 0 4 [] 5 9 .nil [Handler.user 6 .nil] (by decide) (by decide) (by simp) (by decide)

/-- C2 failing input: one listener is registered under the name e, and a
handler that was never registered is removed. The code computes indexOf
as minus one and splices at the last position, deleting the unrelated
registered listener; the registry is not left unchanged as the claim
requires. -/
theorem removeEventListener_absent_removes_last :
    removeEventListener (.vStr "e") (.user 2 .nil)
        ⟨none, [("e", [Handler.user 1 .nil])], [], [], []⟩
      = (.ok (), ⟨none, [("e", [])], [], [], []⟩) ∧
    (removeEventListener (.vStr "e") (.user 2 .nil)
        ⟨none, [("e", [Handler.user 1 .nil])], [], [], []⟩).2.listeners
      ≠ [("e", [Handler.user 1 .nil])] := by
  decide

/-- C3 counterexample: two handlers are registered via once on the same
event name; the first one reentrantly raises the event during its own
execution. The second once handler is dispatched in the nested raise and
again in the outer snapshot, so its wrapped handler (tag 3) runs twice in
the log, refuting that a handler registered via once never fires again
after its first firing even under reentrant raises. -/
theorem once_reentrant_double_fire :
    (once (.vStr "e") (.user 1 (.cons (.emitCmd "e" 7) .nil)) ⟨none, [], [], [], []⟩).1
      = .ok () ∧
    (once (.vStr "e") (.user 3 .nil)
      (once (.vStr "e") (.user 1 (.cons (.emitCmd "e" 7) .nil))
        ⟨none, [], [], [], []⟩).2).1 = .ok () ∧
    (raiseEvent 12 (.vStr "e") 7
      (once (.vStr "e") (.user 3 .nil)
        (once (.vStr "e") (.user 1 (.cons (.emitCmd "e" 7) .nil))
          ⟨none, [], [], [], []⟩).2).2).1 = .ok true ∧
    (raiseEvent 12 (.vStr "e") 7
      (once (.vStr "e") (.user 3 .nil)
        (once (.vStr "e") (.user 1 (.cons (.emitCmd "e" 7) .nil))
          ⟨none, [], [], [], []⟩).2).2).2.log = [(1, 7), (3, 7), (3, 7)] := by
  decide

/-- C3 amended: the once adapter removes itself before invoking the
wrapped handler, so in the absence of reentrant raises of the same event
the handler fires on at most the next raise after registration and never
again: here, on a hub with no other listener for the name, the first
emission after registration runs the handler exactly once and a second
emission finds no listener and returns false. -/
theorem once_single_fire (w : World) (s : String) (tag : Nat) (d1 d2 : Data) (fuel : Nat)
    (hc : checkNameStr w.validEvents s = .ok ())
    (hl : lookupL w.listeners s = none) (hfu : 5 ≤ fuel) :
    ∃ w1 w2,
      once (.vStr s) (.user tag .nil) w = (.ok (), w1) ∧
      raiseEvent fuel (.vStr s) d1 w1 = (.ok true, w2) ∧
      w2.log = w.log ++ [(tag, d1)] ∧
      lookupL w2.listeners s = some [] ∧
      raiseEvent fuel (.vStr s) d2 w2 = (.ok false, w2) := by
  obtain ⟨n, rfl⟩ : ∃ n, fuel = n + 1 + 1 + 1 + 1 + 1 := ⟨fuel - 5, by omega⟩
  have hc2 : checkEventName w.validEvents (.vStr s) = .ok () := by
    rw [checkEventName_str]; exact hc
  refine ⟨{ w with listeners := setL w.listeners s [Handler.onceWrap s (.user tag .nil)] },
    { w with
      listeners := setL (setL w.listeners s [Handler.onceWrap s (.user tag .nil)]) s [],
      trace := w.trace ++ [(Handler.onceWrap s (.user tag .nil), d1)],
      log := w.log ++ [(tag, d1)] }, ?_, ?_, rfl, lookupL_setL_self _ _ _, ?_⟩
  · simp only [once, hc2, addEventListener, JSValue.asStr, hl]
  · simp only [raiseEvent, step, checkEventName_str, hc, hc2, JSValue.asStr,
      lookupL_setL_self, removeEventListener, jsIndexOf, jsSplice1]
    simp
  · simp only [raiseEvent, step, checkEventName_str, hc, hc2, JSValue.asStr,
      lookupL_setL_self]
    simp

/-- Witness for the amended C3 on a fresh hub. -/
theorem once_single_fire_witness :
    ∃ w1 w2,
      once (.vStr "e") (.user 4 .nil) ⟨none, [], [], [], []⟩ = (.ok (), w1) ∧
      raiseEvent 5 (.vStr "e") 1 w1 = (.ok true, w2) ∧
      w2.log = [(4, 1)] ∧
      lookupL w2.listeners "e" = some [] ∧
      raiseEvent 5 (.vStr "e") 2 w2 = (.ok false, w2) :=
  once_single_fire ⟨none, [], [], [], []⟩ "e" 4 1 2 5 (by decide) (by decide) (by decide)

/-- After an await or cbOnce registration, raising the success event
settles the registration once with the data, removes both internal
handlers, and a later raise of the failure event finds no listener and
returns false without further settlement. -/
theorem race_post (fl : Flavor) (uid : Nat) (w : World) (s f : String) (d e : Data) (n : Nat)
    (hcs : checkNameStr w.validEvents s = .ok ())
    (hcf : checkNameStr w.validEvents f = .ok ())
    (hne : s ≠ f) :
    ∃ w2,
      raiseEvent (n + 1 + 1 + 1) (.vStr s) d
        { w with listeners := setL (setL w.listeners s [Handler.raceSuccess fl uid s f]) f [Handler.raceFailure fl uid s f] } = (.ok true, w2) ∧
      w2.settled = w.settled ++ [(fl, uid, .ok d)] ∧
      lookupL w2.listeners s = some [] ∧
      lookupL w2.listeners f = some [] ∧
      raiseEvent (n + 1 + 1 + 1) (.vStr f) e w2 = (.ok false, w2) := by
  have hcs2 : checkEventName w.validEvents (.vStr s) = .ok () := by
    rw [checkEventName_str]; exact hcs
  have hcf2 : checkEventName w.validEvents (.vStr f) = .ok () := by
    rw [checkEventName_str]; exact hcf
  have e2 : lookupL (setL (setL w.listeners s [Handler.raceSuccess fl uid s f]) f
      [Handler.raceFailure fl uid s f]) s = some [Handler.raceSuccess fl uid s f] := by
    rw [lookupL_setL_ne _ _ _ _ hne, lookupL_setL_self]
  have e3 : lookupL (setL (setL (setL w.listeners s [Handler.raceSuccess fl uid s f]) f
      [Handler.raceFailure fl uid s f]) s []) f = some [Handler.raceFailure fl uid s f] := by
    rw [lookupL_setL_ne _ _ _ _ (Ne.symm hne), lookupL_setL_self]
  have e4 : lookupL (setL (setL (setL (setL w.listeners s [Handler.raceSuccess fl uid s f]) f
      [Handler.raceFailure fl uid s f]) s []) f []) s = some [] := by
    rw [lookupL_setL_ne _ _ _ _ hne, lookupL_setL_self]
  have e5 : lookupL (setL (setL (setL (setL w.listeners s [Handler.raceSuccess fl uid s f]) f
      [Handler.raceFailure fl uid s f]) s []) f []) f = some [] := lookupL_setL_self _ _ _
  refine ⟨{ w with
    listeners := setL (setL (setL (setL w.listeners s [Handler.raceSuccess fl uid s f]) f
      [Handler.raceFailure fl uid s f]) s []) f [],
    trace := w.trace ++ [(Handler.raceSuccess fl uid s f, d)],
    settled := w.settled ++ [(fl, uid, .ok d)] }, ?_, rfl, e4, e5, ?_⟩
  · simp [raiseEvent, step, checkEventName_str, hcs, hcf, hcs2, hcf2, JSValue.asStr,
      e2, e3, removeEventListener, jsIndexOf, jsSplice1]
  · simp [raiseEvent, step, checkEventName_str, hcf, hcf2, JSValue.asStr, e5]

/-- The await method with two distinct valid fresh names registers its
successHandler under the success name and its failureHandler under the
failure name, in that order, and returns successfully. -/
theorem awaitOp_registers (uid : Nat) (w : World) (s f : String)
    (hcs : checkNameStr w.validEvents s = .ok ())
    (hcf : checkNameStr w.validEvents f = .ok ())
    (hne : s ≠ f)
    (hls : lookupL w.listeners s = none)
    (hlf : lookupL w.listeners f = none) :
    awaitOp uid (.vStr s) (.vStr f) w = (.ok (),
      { w with listeners := setL (setL w.listeners s [Handler.raceSuccess .promiseF uid s f]) f [Handler.raceFailure .promiseF uid s f] }) := by
  have hcs2 : checkEventName w.validEvents (.vStr s) = .ok () := by
    rw [checkEventName_str]; exact hcs
  have hcf2 : checkEventName w.validEvents (.vStr f) = .ok () := by
    rw [checkEventName_str]; exact hcf
  have hvne : (JSValue.vStr s) ≠ (JSValue.vStr f) := by simpa using hne
  have e1 : lookupL (setL w.listeners s [Handler.raceSuccess .promiseF uid s f]) f = none := by
    rw [lookupL_setL_ne _ _ _ _ (Ne.symm hne)]; exact hlf
  simp [awaitOp, hcs2, hcf2, hvne, addEventListener, JSValue.asStr, hls, e1]

/-- The cbOnce method with two distinct valid fresh names registers its
successHandler under the success name and its failureHandler under the
failure name, in that order, and returns successfully. -/
theorem cbOnceOp_registers (uid : Nat) (w : World) (s f : String)
    (hcs : checkNameStr w.validEvents s = .ok ())
    (hcf : checkNameStr w.validEvents f = .ok ())
    (hne : s ≠ f)
    (hls : lookupL w.listeners s = none)
    (hlf : lookupL w.listeners f = none) :
    cbOnceOp uid (.vStr s) (.vStr f) w = (.ok (),
      { w with listeners := setL (setL w.listeners s [Handler.raceSuccess .callbackF uid s f]) f [Handler.raceFailure .callbackF uid s f] }) := by
  have hcs2 : checkEventName w.validEvents (.vStr s) = .ok () := by
    rw [checkEventName_str]; exact hcs
  have hcf2 : checkEventName w.validEvents (.vStr f) = .ok () := by
    rw [checkEventName_str]; exact hcf
  have hvne : (JSValue.vStr s) ≠ (JSValue.vStr f) := by simpa using hne
  have e1 : lookupL (setL w.listeners s [Handler.raceSuccess .callbackF uid s f]) f = none := by
    rw [lookupL_setL_ne _ _ _ _ (Ne.symm hne)]; exact hlf
  simp [cbOnceOp, hcs2, hcf2, hvne, addEventListener, JSValue.asStr, hls, e1]

/-- C4: for a hub with a registered await or cbOnce pair, whichever of
the two events is emitted first wins: emitting the success event delivers
the outcome exactly once with the data, removes both internal handlers,
and a later emit of the failure event finds no observer and returns false
without delivering anything further. -/
theorem race_first_event_wins (w : World) (s f : String) (uid : Nat) (d e : Data)
    (fuel : Nat)
    (hcs : checkNameStr w.validEvents s = .ok ())
    (hcf : checkNameStr w.validEvents f = .ok ())
    (hne : s ≠ f)
    (hls : lookupL w.listeners s = none)
    (hlf : lookupL w.listeners f = none)
    (hfu : 3 ≤ fuel) :
    (∃ w1 w2, awaitOp uid (.vStr s) (.vStr f) w = (.ok (), w1) ∧
      raiseEvent fuel (.vStr s) d w1 = (.ok true, w2) ∧
      w2.settled = w.settled ++ [(.promiseF, uid, .ok d)] ∧
      lookupL w2.listeners s = some [] ∧ lookupL w2.listeners f = some [] ∧
      raiseEvent fuel (.vStr f) e w2 = (.ok false, w2)) ∧
    (∃ w1 w2, cbOnceOp uid (.vStr s) (.vStr f) w = (.ok (), w1) ∧
      raiseEvent fuel (.vStr s) d w1 = (.ok true, w2) ∧
      w2.settled = w.settled ++ [(.callbackF, uid, .ok d)] ∧
      lookupL w2.listeners s = some [] ∧ lookupL w2.listeners f = some [] ∧
      raiseEvent fuel (.vStr f) e w2 = (.ok false, w2)) := by
  obtain ⟨n, rfl⟩ : ∃ n, fuel = n + 1 + 1 + 1 := ⟨fuel - 3, by omega⟩
  constructor
  · obtain ⟨w2, h1, h2, h3, h4, h5⟩ := race_post .promiseF uid w s f d e n hcs hcf hne
    exact ⟨_, w2, awaitOp_registers uid w s f hcs hcf hne hls hlf, h1, h2, h3, h4, h5⟩
  · obtain ⟨w2, h1, h2, h3, h4, h5⟩ := race_post .callbackF uid w s f d e n hcs hcf hne
    exact ⟨_, w2, cbOnceOp_registers uid w s f hcs hcf hne hls hlf, h1, h2, h3, h4, h5⟩

/-- Witness for C4 on a fresh hub with names s and f. -/
theorem race_first_event_wins_witness :
    (∃ w1 w2, awaitOp 0 (.vStr "s") (.vStr "f") ⟨none, [], [], [], []⟩ = (.ok (), w1) ∧
      raiseEvent 3 (.vStr "s") 1 w1 = (.ok true, w2) ∧
      w2.settled = [] ++ [(.promiseF, 0, .ok 1)] ∧
      lookupL w2.listeners "s" = some [] ∧ lookupL w2.listeners "f" = some [] ∧
      raiseEvent 3 (.vStr "f") 2 w2 = (.ok false, w2)) ∧
    (∃ w1 w2, cbOnceOp 0 (.vStr "s") (.vStr "f") ⟨none, [], [], [], []⟩ = (.ok (), w1) ∧
      raiseEvent 3 (.vStr "s") 1 w1 = (.ok true, w2) ∧
      w2.settled = [] ++ [(.callbackF, 0, .ok 1)] ∧
      lookupL w2.listeners "s" = some [] ∧ lookupL w2.listeners "f" = some [] ∧
      raiseEvent 3 (.vStr "f") 2 w2 = (.ok false, w2)) :=
  race_first_event_wins ⟨none, [], [], [], []⟩ "s" "f" 0 1 2 3
    (by decide) (by decide) (by decide) (by decide) (by decide) (by decide)

/-- C6: on every hub, await and cbOnce with an identical valid success
and failure name fail synchronously with the invalid-argument error and
leave the world unchanged, registering no listener. -/
theorem identical_names_rejected (w : World) (v : JSValue) (uid : Nat)
    (hc : checkEventName w.validEvents v = .ok ()) :
    awaitOp uid v v w = (.error .invalidArgument, w) ∧
    cbOnceOp uid v v w = (.error .invalidArgument, w) :=
  ⟨by simp [awaitOp, hc], by simp [cbOnceOp, hc]⟩

/-- Witness for C6 on a fresh unrestricted hub. -/
theorem identical_names_rejected_witness :
    awaitOp 0 (.vStr "e") (.vStr "e") ⟨none, [], [], [], []⟩
      = (.error .invalidArgument, ⟨none, [], [], [], []⟩) ∧
    cbOnceOp 0 (.vStr "e") (.vStr "e") ⟨none, [], [], [], []⟩
      = (.error .invalidArgument, ⟨none, [], [], [], []⟩) :=
  identical_names_rejected ⟨none, [], [], [], []⟩ (.vStr "e") 0 (by decide)

/-- The await method never changes the allow-list. -/
theorem awaitOp_validEvents (uid : Nat) (sv fv : JSValue) (w : World) :
    (awaitOp uid sv fv w).2.validEvents = w.validEvents := by
  unfold awaitOp
  split
  · rfl
  · split
    · rfl
    · split
      · rfl
      · split
        · rename_i heq
          have h2 := congrArg (fun p => p.2.validEvents) heq
          dsimp only at h2
          rw [addEventListener_validEvents] at h2
          exact h2.symm
        · rename_i heq1
          split
          · rename_i heq2
            have h2 := congrArg (fun p => p.2.validEvents) heq1
            have h3 := congrArg (fun p => p.2.validEvents) heq2
            dsimp only at h2 h3
            rw [addEventListener_validEvents] at h2 h3
            exact (h2.trans h3).symm
          · rename_i heq2
            have h2 := congrArg (fun p => p.2.validEvents) heq1
            have h3 := congrArg (fun p => p.2.validEvents) heq2
            dsimp only at h2 h3
            rw [addEventListener_validEvents] at h2 h3
            exact (h2.trans h3).symm

/-- The cbOnce method never changes the allow-list. -/
theorem cbOnceOp_validEvents (uid : Nat) (sv fv : JSValue) (w : World) :
    (cbOnceOp uid sv fv w).2.validEvents = w.validEvents := by
  unfold cbOnceOp
  split
  · rfl
  · split
    · rfl
    · split
      · rfl
      · split
        · rename_i heq
          have h2 := congrArg (fun p => p.2.validEvents) heq
          dsimp only at h2
          rw [addEventListener_validEvents] at h2
          exact h2.symm
        · rename_i heq1
          split
          · rename_i heq2
            have h2 := congrArg (fun p => p.2.validEvents) heq1
            have h3 := congrArg (fun p => p.2.validEvents) heq2
            dsimp only at h2 h3
            rw [addEventListener_validEvents] at h2 h3
            exact (h2.trans h3).symm
          · rename_i heq2
            have h2 := congrArg (fun p => p.2.validEvents) heq1
            have h3 := congrArg (fun p => p.2.validEvents) heq2
            dsimp only at h2 h3
            rw [addEventListener_validEvents] at h2 h3
            exact (h2.trans h3).symm

/-- The once method never changes the allow-list. -/
theorem once_validEvents (v : JSValue) (h : Handler) (w : World) :
    (once v h w).2.validEvents = w.validEvents := by
  unfold once
  split
  · rfl
  · exact addEventListener_validEvents _ _ _

/-- C9: the allow-list is immutable after construction: every public
operation, whether it succeeds or throws, leaves the validEvents field of
the hub exactly as it was; only the listener mapping and the observation
records are ever mutated. -/
theorem ops_preserve_validEvents (w : World) (v v2 : JSValue) (h : Handler) (uid : Nat)
    (d : Data) (fuel : Nat) :
    (addEventListener v h w).2.validEvents = w.validEvents ∧
    (onMethod v h w).2.validEvents = w.validEvents ∧
    (removeEventListener v h w).2.validEvents = w.validEvents ∧
    (once v h w).2.validEvents = w.validEvents ∧
    (raiseEvent fuel v d w).2.validEvents = w.validEvents ∧
    (emit fuel v d w).2.validEvents = w.validEvents ∧
    (awaitOp uid v v2 w).2.validEvents = w.validEvents ∧
    (cbOnceOp uid v v2 w).2.validEvents = w.validEvents :=
  ⟨addEventListener_validEvents v h w, addEventListener_validEvents v h w,
    removeEventListener_validEvents v h w, once_validEvents v h w,
    step_validEvents fuel _ w, step_validEvents fuel _ w,
    awaitOp_validEvents uid v v2 w, cbOnceOp_validEvents uid v v2 w⟩

/-- C10: validation failures are atomic: when any public operation throws
because of event-name validation or the identical-names check, it returns
the world exactly unchanged: no listener was added, removed, or invoked
before the error was raised. -/
theorem validation_failure_atomic (w : World) (v v2 : JSValue) (h : Handler) (uid : Nat)
    (d : Data) (fuel : Nat) (e : EvError) :
    (checkEventName w.validEvents v = .error e →
      addEventListener v h w = (.error e, w) ∧
      onMethod v h w = (.error e, w) ∧
      removeEventListener v h w = (.error e, w) ∧
      once v h w = (.error e, w) ∧
      raiseEvent (fuel + 1) v d w = (.error e, w) ∧
      emit (fuel + 1) v d w = (.error e, w) ∧
      awaitOp uid v v2 w = (.error e, w) ∧
      cbOnceOp uid v v2 w = (.error e, w)) ∧
    (checkEventName w.validEvents v = .ok () → checkEventName w.validEvents v2 = .error e →
      awaitOp uid v v2 w = (.error e, w) ∧
      cbOnceOp uid v v2 w = (.error e, w)) ∧
    (checkEventName w.validEvents v = .ok () →
      awaitOp uid v v w = (.error .invalidArgument, w) ∧
      cbOnceOp uid v v w = (.error .invalidArgument, w)) := by
  refine ⟨fun hc => ?_, fun hc1 hc2 => ?_, fun hc => ?_⟩
  · exact ⟨by simp [addEventListener, hc], by simp [onMethod, addEventListener, hc],
      by simp [removeEventListener, hc], by simp [once, hc],
      by simp [raiseEvent, step, hc], by simp [emit, raiseEvent, step, hc],
      by simp [awaitOp, hc], by simp [cbOnceOp, hc]⟩
  · exact ⟨by simp [awaitOp, hc1, hc2], by simp [cbOnceOp, hc1, hc2]⟩
  · exact ⟨by simp [awaitOp, hc], by simp [cbOnceOp, hc]⟩

/-- Witness for C10: an unknown name on an allow-listed hub leaves the
hub unchanged in every operation. -/
theorem validation_failure_atomic_witness :
    addEventListener (.vStr "x") (.user 0 .nil) ⟨some ["a"], [], [], [], []⟩
      = (.error .unknownEvent, ⟨some ["a"], [], [], [], []⟩) ∧
    onMethod (.vStr "x") (.user 0 .nil) ⟨some ["a"], [], [], [], []⟩
      = (.error .unknownEvent, ⟨some ["a"], [], [], [], []⟩) ∧
    removeEventListener (.vStr "x") (.user 0 .nil) ⟨some ["a"], [], [], [], []⟩
      = (.error .unknownEvent, ⟨some ["a"], [], [], [], []⟩) ∧
    once (.vStr "x") (.user 0 .nil) ⟨some ["a"], [], [], [], []⟩
      = (.error .unknownEvent, ⟨some ["a"], [], [], [], []⟩) ∧
    raiseEvent 3 (.vStr "x") 0 ⟨some ["a"], [], [], [], []⟩
      = (.error .unknownEvent, ⟨some ["a"], [], [], [], []⟩) ∧
    emit 3 (.vStr "x") 0 ⟨some ["a"], [], [], [], []⟩
      = (.error .unknownEvent, ⟨some ["a"], [], [], [], []⟩) ∧
    awaitOp 0 (.vStr "x") (.vStr "a") ⟨some ["a"], [], [], [], []⟩
      = (.error .unknownEvent, ⟨some ["a"], [], [], [], []⟩) ∧
    cbOnceOp 0 (.vStr "x") (.vStr "a") ⟨some ["a"], [], [], [], []⟩
      = (.error .unknownEvent, ⟨some ["a"], [], [], [], []⟩) :=
  (validation_failure_atomic ⟨some ["a"], [], [], [], []⟩ (.vStr "x") (.vStr "a")
    (.user 0 .nil) 0 0 2 .unknownEvent).1 (by decide)

/-- C8 counterexample: the empty string is a bare string argument, yet
construction does not fail with the invalid-argument error: the empty
string is falsy, so the falsy branch runs first and yields the
unrestricted hub. -/
theorem ctor_empty_string_not_error :
    mkUniversalEvents (.str "") = .ok ⟨none, [], [], [], []⟩ ∧
    mkUniversalEvents (.str "") ≠ .error .invalidArgument := by
  decide

/-- C8 amended: construction with a nonempty bare string fails with the
invalid-argument error; construction with a falsy argument (absent, null,
or the empty string) yields the unrestricted hub, which accepts exactly
the nonempty string names; construction with any other iterable of
strings yields a hub whose allow-list holds exactly those names, and a
name check on such a hub succeeds exactly for its nonempty members. -/
theorem ctor_classification :
    (∀ s : String, s ≠ "" → mkUniversalEvents (.str s) = .error .invalidArgument) ∧
    mkUniversalEvents .undef = .ok ⟨none, [], [], [], []⟩ ∧
    mkUniversalEvents .null = .ok ⟨none, [], [], [], []⟩ ∧
    mkUniversalEvents (.str "") = .ok ⟨none, [], [], [], []⟩ ∧
    (∀ l : List String, mkUniversalEvents (.strs l) = .ok ⟨some l, [], [], [], []⟩) ∧
    (∀ s : String, checkEventName none (.vStr s) = .ok () ↔ s ≠ "") ∧
    (∀ (l : List String) (s : String),
      checkEventName (some l) (.vStr s) = .ok () ↔ (s ≠ "" ∧ s ∈ l)) := by
  refine ⟨?_, rfl, rfl, rfl, fun l => rfl, ?_, ?_⟩
  · intro s hs; simp [mkUniversalEvents, hs]
  · intro s; by_cases hs : s = "" <;> simp [checkEventName, jsTruthy, hs]
  · intro l s
    by_cases hs : s = ""
    · simp [checkEventName, jsTruthy, hs]
    · by_cases hm : s ∈ l <;> simp [checkEventName, jsTruthy, hs, hm]

/-- Witness for the amended C8: a nonempty bare string is rejected. -/
theorem ctor_classification_witness :
    mkUniversalEvents (.str "events") = .error .invalidArgument :=
  ctor_classification.1 "events" (by decide)

theorem protoArity_of_noProto (s : String) (h : noProto s = true) :
    protoArity s = none := by
  unfold noProto at h
  split at h
  · assumption
  · simp at h

theorem protoArity_of_not_noProto (s : String) (h : noProto s = false) :
    ∃ n, protoArity s = some n := by
  unfold noProto at h
  split at h
  · simp at h
  · exact ⟨_, by assumption⟩

theorem jsGet_own (m : List (String × List Handler)) (k : String) (hs : List Handler)
    (h : lookupL m k = some hs) : jsGet m k = .own hs := by
  simp [jsGet, h]

theorem jsGet_missing (m : List (String × List Handler)) (k : String)
    (h1 : lookupL m k = none) (h2 : protoArity k = none) : jsGet m k = .missing := by
  simp [jsGet, h1, h2]

theorem jsGet_inherited (m : List (String × List Handler)) (k : String) (n : Nat)
    (h1 : lookupL m k = none) (h2 : protoArity k = some n) : jsGet m k = .inherited n := by
  simp [jsGet, h1, h2]

/-- A successful validation on a name avoiding the inherited names lets
addEventListenerP succeed, changing only the listener mapping. -/
theorem addEventListenerP_ok (v : JSValue) (h : Handler) (w : World)
    (hc : checkEventName w.validEvents v = .ok ()) (hp : noProto v.asStr = true) :
    ∃ l, addEventListenerP v h w = (.ok (), { w with listeners := l }) := by
  unfold addEventListenerP
  rw [hc]
  cases hl : lookupL w.listeners v.asStr with
  | none =>
    rw [jsGet_missing _ _ hl (protoArity_of_noProto _ hp)]
    exact ⟨_, rfl⟩
  | some hs =>
    rw [jsGet_own _ _ _ hl]
    exact ⟨_, rfl⟩

/-- A successful validation on a name avoiding the inherited names lets
removeEventListenerP succeed, changing only the listener mapping. -/
theorem removeEventListenerP_ok (v : JSValue) (h : Handler) (w : World)
    (hc : checkEventName w.validEvents v = .ok ()) (hp : noProto v.asStr = true) :
    ∃ l, removeEventListenerP v h w = (.ok (), { w with listeners := l }) := by
  unfold removeEventListenerP
  rw [hc]
  cases hl : lookupL w.listeners v.asStr with
  | none =>
    rw [jsGet_missing _ _ hl (protoArity_of_noProto _ hp)]
    exact ⟨w.listeners, rfl⟩
  | some hs =>
    rw [jsGet_own _ _ _ hl]
    exact ⟨_, rfl⟩

/-- On names avoiding the inherited Object.prototype properties, the
prototype-aware addEventListenerP coincides with addEventListener. -/
theorem addEventListenerP_agrees (v : JSValue) (h : Handler) (w : World)
    (hp : noProto v.asStr = true) :
    addEventListenerP v h w = addEventListener v h w := by
  unfold addEventListenerP addEventListener
  cases checkEventName w.validEvents v with
  | error e => rfl
  | ok u =>
    cases hl : lookupL w.listeners v.asStr with
    | none => rw [jsGet_missing _ _ hl (protoArity_of_noProto _ hp)]
    | some hs => rw [jsGet_own _ _ _ hl]

/-- On names avoiding the inherited Object.prototype properties, the
prototype-aware removeEventListenerP coincides with removeEventListener. -/
theorem removeEventListenerP_agrees (v : JSValue) (h : Handler) (w : World)
    (hp : noProto v.asStr = true) :
    removeEventListenerP v h w = removeEventListener v h w := by
  unfold removeEventListenerP removeEventListener
  cases checkEventName w.validEvents v with
  | error e => rfl
  | ok u =>
    cases hl : lookupL w.listeners v.asStr with
    | none => rw [jsGet_missing _ _ hl (protoArity_of_noProto _ hp)]
    | some hs => rw [jsGet_own _ _ _ hl]

/-- Running a program that is benign for the prototype-aware semantics
succeeds and leaves the allow-list and the dispatch trace untouched. -/
theorem cmds_benignP : ∀ (fuel : Nat) (cs : CmdList) (d : Data) (w : World),
    cmdsBP w.validEvents cs = true → csFuel cs ≤ fuel →
    ∃ w2, stepP fuel (.cmds cs d) w = (.ok true, w2) ∧
      w2.validEvents = w.validEvents ∧ w2.trace = w.trace := by
  intro fuel
  induction fuel with
  | zero =>
    intro cs d w hb hf
    exact absurd (Nat.le_trans (csFuel_pos cs) hf) (by omega)
  | succ n ih =>
    intro cs d w hb hf
    cases cs with
    | nil => exact ⟨w, rfl, rfl, rfl⟩
    | cons c rest =>
      have hf2 : csFuel rest ≤ n := by simp only [csFuel] at hf; omega
      cases c with
      | add nm h =>
        simp only [cmdsBP, cmdBP, Bool.and_eq_true] at hb
        have hc : checkEventName w.validEvents (.vStr nm) = .ok () := by
          rw [checkEventName_str]; exact (okB_iff _).mp hb.1.1
        obtain ⟨l, hadd⟩ := addEventListenerP_ok (.vStr nm) h w hc hb.1.2
        obtain ⟨w2, hs2, hv2, ht2⟩ := ih rest d { w with listeners := l } hb.2 hf2
        refine ⟨w2, ?_, hv2, ht2⟩
        simp only [stepP, hadd]
        exact hs2
      | remove nm h =>
        simp only [cmdsBP, cmdBP, Bool.and_eq_true] at hb
        have hc : checkEventName w.validEvents (.vStr nm) = .ok () := by
          rw [checkEventName_str]; exact (okB_iff _).mp hb.1.1
        obtain ⟨l, hrm⟩ := removeEventListenerP_ok (.vStr nm) h w hc hb.1.2
        obtain ⟨w2, hs2, hv2, ht2⟩ := ih rest d { w with listeners := l } hb.2 hf2
        refine ⟨w2, ?_, hv2, ht2⟩
        simp only [stepP, hrm]
        exact hs2
      | emitCmd nm d1 => simp [cmdsBP, cmdBP] at hb
      | throwE eid => simp [cmdsBP, cmdBP] at hb

/-- Invoking a handler that is benign for the prototype-aware semantics
succeeds and leaves the allow-list and the dispatch trace untouched. -/
theorem hnd_benignP : ∀ (fuel : Nat) (h : Handler) (d : Data) (w : World),
    hBP w.validEvents h = true → hFuel h ≤ fuel →
    ∃ w2, stepP fuel (.hnd h d) w = (.ok true, w2) ∧
      w2.validEvents = w.validEvents ∧ w2.trace = w.trace := by
  intro fuel
  induction fuel with
  | zero =>
    intro h d w hb hf
    exact absurd (Nat.le_trans (hFuel_pos h) hf) (by omega)
  | succ n ih =>
    intro h d w hb hf
    cases h with
    | user tag prog =>
      have hf2 : csFuel prog ≤ n := by simp only [hFuel] at hf; omega
      obtain ⟨w2, hs2, hv2, ht2⟩ :=
        cmds_benignP n prog d { w with log := w.log ++ [(tag, d)] } hb hf2
      refine ⟨w2, ?_, hv2, ht2⟩
      simp only [stepP]
      exact hs2
    | onceWrap nm inner =>
      simp only [hBP, Bool.and_eq_true] at hb
      have hc : checkEventName w.validEvents (.vStr nm) = .ok () := by
        rw [checkEventName_str]; exact (okB_iff _).mp hb.1.1
      obtain ⟨l, hrm⟩ := removeEventListenerP_ok (.vStr nm) (.onceWrap nm inner) w hc hb.1.2
      have hf2 : hFuel inner ≤ n := by simp only [hFuel] at hf; omega
      obtain ⟨w2, hs2, hv2, ht2⟩ := ih inner d { w with listeners := l } hb.2 hf2
      refine ⟨w2, ?_, hv2, ht2⟩
      simp only [stepP, hrm]
      exact hs2
    | raceSuccess fl uid s f =>
      simp only [hBP, Bool.and_eq_true] at hb
      have hc1 : checkEventName w.validEvents (.vStr s) = .ok () := by
        rw [checkEventName_str]; exact (okB_iff _).mp hb.1.1.1
      have hc2 : checkEventName w.validEvents (.vStr f) = .ok () := by
        rw [checkEventName_str]; exact (okB_iff _).mp hb.1.2
      obtain ⟨l1, hrm1⟩ :=
        removeEventListenerP_ok (.vStr s) (.raceSuccess fl uid s f) w hc1 hb.1.1.2
      obtain ⟨l2, hrm2⟩ :=
        removeEventListenerP_ok (.vStr f) (.raceFailure fl uid s f)
          { w with listeners := l1 } hc2 hb.2
      refine ⟨{ w with listeners := l2, settled := w.settled ++ [(fl, uid, Except.ok d)] }, ?_, rfl, rfl⟩
      simp only [stepP, hrm1, hrm2]
    | raceFailure fl uid s f =>
      simp only [hBP, Bool.and_eq_true] at hb
      have hc1 : checkEventName w.validEvents (.vStr s) = .ok () := by
        rw [checkEventName_str]; exact (okB_iff _).mp hb.1.1.1
      have hc2 : checkEventName w.validEvents (.vStr f) = .ok () := by
        rw [checkEventName_str]; exact (okB_iff _).mp hb.1.2
      obtain ⟨l1, hrm1⟩ :=
        removeEventListenerP_ok (.vStr s) (.raceSuccess fl uid s f) w hc1 hb.1.1.2
      obtain ⟨l2, hrm2⟩ :=
        removeEventListenerP_ok (.vStr f) (.raceFailure fl uid s f)
          { w with listeners := l1 } hc2 hb.2
      refine ⟨{ w with listeners := l2, settled := w.settled ++ [(fl, uid, Except.error d)] }, ?_, rfl, rfl⟩
      simp only [stepP, hrm1, hrm2]

/-- Running the snapshot loop over handlers benign for the
prototype-aware semantics succeeds and appends exactly one dispatch
record per snapshot element, in snapshot order, all carrying the emitted
data. -/
theorem snap_benignP : ∀ (fuel : Nat) (hs : List Handler) (d : Data) (w : World),
    (∀ h ∈ hs, hBP w.validEvents h = true) → snapFuel hs ≤ fuel →
    ∃ w2, stepP fuel (.snap hs d) w = (.ok true, w2) ∧
      w2.validEvents = w.validEvents ∧
      w2.trace = w.trace ++ hs.map (fun h => (h, d)) := by
  intro fuel
  induction fuel with
  | zero =>
    intro hs d w hb hf
    exact absurd (Nat.le_trans (snapFuel_pos hs) hf) (by omega)
  | succ n ih =>
    intro hs d w hb hf
    cases hs with
    | nil => exact ⟨w, rfl, rfl, by simp⟩
    | cons h rest =>
      simp only [snapFuel] at hf
      have hm : max (hFuel h) (snapFuel rest) ≤ n := Nat.le_of_succ_le_succ hf
      have hfh : hFuel h ≤ n := le_trans (le_max_left _ _) hm
      have hfr : snapFuel rest ≤ n := le_trans (le_max_right _ _) hm
      obtain ⟨w1, hs1, hv1, ht1⟩ :=
        hnd_benignP n h d { w with trace := w.trace ++ [(h, d)] }
          (hb h (List.mem_cons_self h rest)) hfh
      obtain ⟨w2, hs2, hv2, ht2⟩ := ih rest d w1
        (by
          intro x hx
          rw [hv1]
          exact hb x (List.mem_cons_of_mem h hx))
        hfr
      refine ⟨w2, ?_, by rw [hv2, hv1], ?_⟩
      · simp only [stepP, hs1]
        exact hs2
      · rw [ht2, ht1]
        simp

/-- C1 counterexample: on a freshly constructed hub with no allow-list
and no registered handlers, emit of the valid name hasOwnProperty does
not return false: the listener dictionary read finds the inherited
Object.prototype method, which is truthy with positive length, and the
slice call on it throws a TypeError. -/
theorem raiseEventP_inherited_typeError :
    raiseEventP 3 (.vStr "hasOwnProperty") 0 ⟨none, [], [], [], []⟩
      = (.error .typeError, ⟨none, [], [], [], []⟩) ∧
    (raiseEventP 3 (.vStr "hasOwnProperty") 0 ⟨none, [], [], [], []⟩).1 ≠ .ok false := by
  decide

/-- C1 amended: for every hub and valid event name, emit with no own
listener entry returns false and leaves the world unchanged when the name
does not collide with an inherited Object.prototype property (likewise
for an own empty array); when the name has no own entry but collides with
an inherited property, emit throws a TypeError if the inherited value has
positive length and returns false if its length reads as zero or
undefined; otherwise emit snapshots the current own handler array,
dispatches every snapshotted handler exactly once, in registration order,
passing the same data to each, and returns true — and this holds for
arbitrary benign handlers, that is, handlers that may add or remove
validly named non-colliding listeners during their own execution, so such
mutations never change which handlers fire, or how many times, for the
current emission. -/
theorem raiseEventP_snapshot (w : World) (s : String) (d : Data) (fuel : Nat)
    (hc : checkNameStr w.validEvents s = .ok ()) :
    ((protoArity s = none ∧ lookupL w.listeners s = none ∨
        lookupL w.listeners s = some []) → 1 ≤ fuel →
      raiseEventP fuel (.vStr s) d w = (.ok false, w)) ∧
    (∀ n, lookupL w.listeners s = none → protoArity s = some n → 1 ≤ fuel →
      raiseEventP fuel (.vStr s) d w
        = if 0 < n then (.error .typeError, w) else (.ok false, w)) ∧
    (∀ hs, lookupL w.listeners s = some hs → hs ≠ [] →
      (∀ h ∈ hs, hBP w.validEvents h = true) → snapFuel hs + 1 ≤ fuel →
      ∃ w2, raiseEventP fuel (.vStr s) d w = (.ok true, w2) ∧
        w2.trace = w.trace ++ hs.map (fun h => (h, d)) ∧
        w2.validEvents = w.validEvents) := by
  refine ⟨?_, ?_, ?_⟩
  · rintro (⟨hp, hl⟩ | hl) hf
    · obtain ⟨m, rfl⟩ : ∃ m, fuel = m + 1 := ⟨fuel - 1, by omega⟩
      simp only [raiseEventP, stepP, checkEventName_str, hc, JSValue.asStr,
        jsGet_missing _ _ hl hp]
    · obtain ⟨m, rfl⟩ : ∃ m, fuel = m + 1 := ⟨fuel - 1, by omega⟩
      simp only [raiseEventP, stepP, checkEventName_str, hc, JSValue.asStr,
        jsGet_own _ _ _ hl]
      simp
  · intro n hl hp hf
    obtain ⟨m, rfl⟩ : ∃ m, fuel = m + 1 := ⟨fuel - 1, by omega⟩
    simp only [raiseEventP, stepP, checkEventName_str, hc, JSValue.asStr,
      jsGet_inherited _ _ _ hl hp]
  · intro hs hl hne hb hf
    obtain ⟨m, rfl⟩ : ∃ m, fuel = m + 1 := ⟨fuel - 1, by omega⟩
    have hsf : snapFuel hs ≤ m := by omega
    obtain ⟨w2, hstep, hv, ht⟩ := snap_benignP m hs d w hb hsf
    have hlen : hs.length > 0 := List.length_pos.mpr hne
    refine ⟨w2, ?_, ht, hv⟩
    simp only [raiseEventP, stepP, checkEventName_str, hc, JSValue.asStr,
      jsGet_own _ _ _ hl, if_pos hlen, hstep]

/-- Witness for the amended C1 at a concrete hub: one registered handler
fires once with the emitted data and emit returns true. -/
theorem raiseEventP_snapshot_witness :
    ∃ w2, raiseEventP 4 (.vStr "e") (0 : Data)
        ⟨none, [("e", [Handler.user 1 .nil])], [], [], []⟩ = (.ok true, w2) ∧
      w2.trace = [(Handler.user 1 CmdList.nil, (0 : Data))] ∧
      w2.validEvents = none :=
  (raiseEventP_snapshot ⟨none, [("e", [Handler.user 1 .nil])], [], [], []⟩ "e" 0 4
    (by decide)).2.2 [Handler.user 1 .nil] (by decide) (by decide) (by decide) (by decide)

/-- C5 counterexample: the name constructor passes validation on a hub
without an allow-list, yet addEventListener does not accept it: the
creation guard sees the inherited Object constructor, skips the array
creation, and the push on that function throws a TypeError. -/
theorem on_constructor_typeError :
    checkEventName none (.vStr "constructor") = .ok () ∧
    addEventListenerP (.vStr "constructor") (.user 0 .nil) ⟨none, [], [], [], []⟩
      = (.error .typeError, ⟨none, [], [], [], []⟩) := by
  decide

/-- C5 amended: every public name-taking operation applies the same
validation: an empty or otherwise falsy name and a non-string name give
the invalid-argument error, a name outside a configured allow-list gives
the unknown-event error, and otherwise the name check succeeds, a failing
check propagating identically out of every operation. Passing the name
check however only guarantees success for names that avoid the inherited
Object.prototype property names: those names pass validation but make the
operations fail with a TypeError at the listener dictionary access, so a
hub without an allow-list accepts, on every operation, exactly the
nonempty string names avoiding the inherited names, and an allow-listed
hub accepts its members subject to the same caveat. -/
theorem validation_uniform_amended :
    (∀ (ve : Option (List String)), checkEventName ve (.vStr "") = .error .invalidArgument) ∧
    (∀ (ve : Option (List String)) (n : Int) (b : Bool),
      checkEventName ve (.vNum n) = .error .invalidArgument ∧
      checkEventName ve (.vBool b) = .error .invalidArgument ∧
      checkEventName ve .vNull = .error .invalidArgument ∧
      checkEventName ve .vUndefined = .error .invalidArgument) ∧
    (∀ (allowed : List String) (s : String), s ≠ "" → s ∉ allowed →
      checkEventName (some allowed) (.vStr s) = .error .unknownEvent) ∧
    (∀ s : String, s ≠ "" → checkEventName none (.vStr s) = .ok ()) ∧
    (∀ (allowed : List String) (s : String), "" ∉ allowed →
      (checkEventName (some allowed) (.vStr s) = .ok () ↔ s ∈ allowed)) ∧
    (∀ (w : World) (v : JSValue) (h : Handler) (uid : Nat) (d : Data) (fuel : Nat)
      (e : EvError), checkEventName w.validEvents v = .error e →
      (addEventListenerP v h w).1 = .error e ∧ (onMethodP v h w).1 = .error e ∧
      (removeEventListenerP v h w).1 = .error e ∧ (onceP v h w).1 = .error e ∧
      (raiseEventP (fuel + 1) v d w).1 = .error e ∧
      (∀ v2, (awaitOpP uid v v2 w).1 = .error e ∧ (cbOnceOpP uid v v2 w).1 = .error e) ∧
      (∀ v2, checkEventName w.validEvents v2 = .ok () →
        (awaitOpP uid v2 v w).1 = .error e ∧ (cbOnceOpP uid v2 v w).1 = .error e)) ∧
    (∀ (w : World) (v : JSValue) (h : Handler) (uid : Nat) (d : Data) (fuel : Nat),
      checkEventName w.validEvents v = .ok () → noProto v.asStr = true →
      (addEventListenerP v h w).1 = .ok () ∧ (onMethodP v h w).1 = .ok () ∧
      (removeEventListenerP v h w).1 = .ok () ∧ (onceP v h w).1 = .ok () ∧
      (lookupL w.listeners v.asStr = none → raiseEventP (fuel + 1) v d w = (.ok false, w)) ∧
      (∀ v2, checkEventName w.validEvents v2 = .ok () → noProto v2.asStr = true → v ≠ v2 →
        (awaitOpP uid v v2 w).1 = .ok () ∧ (cbOnceOpP uid v v2 w).1 = .ok ())) ∧
    (∀ (w : World) (v : JSValue) (h : Handler),
      checkEventName w.validEvents v = .ok () → lookupL w.listeners v.asStr = none →
      noProto v.asStr = false →
      (addEventListenerP v h w).1 = .error .typeError ∧
      (removeEventListenerP v h w).1 = .error .typeError) := by
  refine ⟨?_, ?_, ?_, ?_, ?_, ?_, ?_, ?_⟩
  · intro ve; simp [checkEventName, jsTruthy]
  · intro ve n b
    refine ⟨?_, ?_, ?_, ?_⟩
    · by_cases hn : n = 0 <;> simp [checkEventName, jsTruthy, hn]
    · cases b <;> simp [checkEventName, jsTruthy]
    · simp [checkEventName, jsTruthy]
    · simp [checkEventName, jsTruthy]
  · intro allowed s hs hm; simp [checkEventName, jsTruthy, hs, hm]
  · intro s hs; simp [checkEventName, jsTruthy, hs]
  · intro allowed s hne
    by_cases hs : s = ""
    · subst hs
      simp [checkEventName, jsTruthy, hne]
    · simp [checkEventName, jsTruthy, hs]
  · intro w v h uid d fuel e hc
    refine ⟨by simp [addEventListenerP, hc], by simp [onMethodP, addEventListenerP, hc],
      by simp [removeEventListenerP, hc], by simp [onceP, hc],
      by simp [raiseEventP, stepP, hc],
      fun v2 => ⟨by simp [awaitOpP, hc], by simp [cbOnceOpP, hc]⟩,
      fun v2 hc2 => ⟨by simp [awaitOpP, hc, hc2], by simp [cbOnceOpP, hc, hc2]⟩⟩
  · intro w v h uid d fuel hc hp
    obtain ⟨la, hadd⟩ := addEventListenerP_ok v h w hc hp
    obtain ⟨lr, hrm⟩ := removeEventListenerP_ok v h w hc hp
    obtain ⟨lo, hon⟩ := addEventListenerP_ok v (.onceWrap v.asStr h) w hc hp
    refine ⟨by simp [hadd], by simp [onMethodP, hadd], by simp [hrm],
      by simp [onceP, hc, hon],
      fun hl => by
        simp [raiseEventP, stepP, hc,
          jsGet_missing _ _ hl (protoArity_of_noProto _ hp)],
      fun v2 hc2 hp2 hne => ?_⟩
    constructor
    · obtain ⟨l1, ha1⟩ :=
        addEventListenerP_ok v (.raceSuccess .promiseF uid v.asStr v2.asStr) w hc hp
      obtain ⟨l2, ha2⟩ :=
        addEventListenerP_ok v2 (.raceFailure .promiseF uid v.asStr v2.asStr)
          { w with listeners := l1 } hc2 hp2
      simp [awaitOpP, hc, hc2, hne, ha1, ha2]
    · obtain ⟨l1, ha1⟩ :=
        addEventListenerP_ok v (.raceSuccess .callbackF uid v.asStr v2.asStr) w hc hp
      obtain ⟨l2, ha2⟩ :=
        addEventListenerP_ok v2 (.raceFailure .callbackF uid v.asStr v2.asStr)
          { w with listeners := l1 } hc2 hp2
      simp [cbOnceOpP, hc, hc2, hne, ha1, ha2]
  · intro w v h hc hl hp
    obtain ⟨n, hpn⟩ := protoArity_of_not_noProto _ hp
    constructor
    · simp [addEventListenerP, hc, jsGet_inherited _ _ _ hl hpn]
    · simp [removeEventListenerP, hc, jsGet_inherited _ _ _ hl hpn]

/-- Witness for the amended C5: a name outside the allow-list is rejected
with the unknown-event error. -/
theorem validation_uniform_amended_witness :
    checkEventName (some ["a"]) (.vStr "b") = .error .unknownEvent :=
  validation_uniform_amended.2.2.1 ["a"] "b" (by decide) (by decide)
